import Mathlib

/-!
Verification of the API-Test-Gen repository against its specification.

The repository is a full-stack API-test-generation platform.  The React
frontend (under `frontend/src`) is embedded directly from its TypeScript
source; strings are modelled as `List Char` and JavaScript string
operations (`split`, `toUpperCase`, `includes`, `trim`) as the
corresponding total functions on character lists.  The Python backend
services (spec resolver, test-case generator, test executor, config API)
are not part of the source tree shipped here, so those operations are
modelled from the specification; each such definition carries a doc
comment starting with `Modelled from the spec:` naming what is missing.
-/

namespace ApiTestGen

/-! ## JavaScript string primitives used by the frontend -/

/-- JavaScript `String.prototype.toUpperCase` on an ASCII string,
modelled character-wise on a `List Char`. -/
def toUpperCase (s : List Char) : List Char := s.map Char.toUpper

/-- Auxiliary accumulator for `jsSplit`: `acc` holds the characters of
the current segment in reverse order. -/
def jsSplitAux (sep : Char) : List Char → List Char → List (List Char)
  | [], acc => [acc.reverse]
  | c :: rest, acc =>
      if c = sep then acc.reverse :: jsSplitAux sep rest []
      else jsSplitAux sep rest (c :: acc)

/-- JavaScript `String.prototype.split(sep)` for a one-character
separator: splits at every occurrence, keeping empty segments. -/
def jsSplit (sep : Char) (s : List Char) : List (List Char) :=
  jsSplitAux sep s []

/-! ## Endpoint keys (frontend `ProjectDetail.tsx` / `TestSuite.tsx`) -/

/-- An endpoint as selected in the frontend endpoint table:
a `(method, path)` pair. -/
structure EndpointId where
  method : List Char
  path : List Char
deriving DecidableEq, Repr

/-- `getEndpointKey` from `ProjectDetail.tsx`:
`${endpoint.method.toUpperCase()}:${endpoint.path}`. -/
def getEndpointKey (e : EndpointId) : List Char :=
  toUpperCase e.method ++ ':' :: e.path

/-- The decoding used by `handleGenerateTests` and `handleDeleteEndpoint`:
`const [method, path] = key.split(':')` — array destructuring takes the
first two segments of the split (`undefined`, i.e. `none`, when absent). -/
def decodeEndpointKey (key : List Char) : Option (List Char) × Option (List Char) :=
  let parts := jsSplit ':' key
  (parts.get? 0, parts.get? 1)

/-! ## Assertions and test cases

The `Assertion` and `TestCase` shapes are embedded from the frontend's
TypeScript interfaces in `TestSuite.tsx` (lines 59–77); JSON values are
modelled by an inductive `Json` type. -/

/-- JSON values, standing in for TypeScript `any` payloads and
assertion expected values. -/
inductive Json where
  | null : Json
  | bool (b : Bool) : Json
  | num (n : Int) : Json
  | str (s : List Char) : Json
  | arr (xs : List Json) : Json
  | obj (fields : List (List Char × Json)) : Json

mutual

/-- Boolean equality on JSON values. -/
def Json.beq : Json → Json → Bool
  | .null, .null => true
  | .bool a, .bool b => a = b
  | .num a, .num b => a = b
  | .str a, .str b => a = b
  | .arr a, .arr b => Json.beqList a b
  | .obj a, .obj b => Json.beqFields a b
  | _, _ => false

/-- Boolean equality on lists of JSON values. -/
def Json.beqList : List Json → List Json → Bool
  | [], [] => true
  | x :: xs, y :: ys => Json.beq x y && Json.beqList xs ys
  | _, _ => false

/-- Boolean equality on JSON object fields. -/
def Json.beqFields : List (List Char × Json) → List (List Char × Json) → Bool
  | [], [] => true
  | (k1, v1) :: xs, (k2, v2) :: ys =>
      k1 = k2 && Json.beq v1 v2 && Json.beqFields xs ys
  | _, _ => false

end

instance : BEq Json := ⟨Json.beq⟩

/-- Assertion type, from the `Assertion` interface in `TestSuite.tsx`. -/
inductive AssertionType where
  | status_code | response_body | response_header | response_time | custom
deriving DecidableEq, Repr

/-- Assertion condition, from the `Assertion` interface and the
assertion-editor dialog in `TestSuite.tsx`. -/
inductive AssertionCondition where
  | equals | not_equals | contains | not_contains
  | greater_than | less_than | matches | «exists» | not_exists
deriving DecidableEq, Repr

/-- An assertion, from the `Assertion` interface in `TestSuite.tsx`. -/
structure Assertion where
  type : AssertionType
  condition : AssertionCondition
  expected_value : Option Json := none
  field : Option (List Char) := none
  description : Option (List Char) := none

/-- A test case, from the `TestCase` interface in `TestSuite.tsx`
(`index` is the suite-stable ordering key; `endpoint`/`method` form the
endpoint reference). -/
structure TestCase where
  index : Nat
  type : List Char
  name : List Char
  endpoint : List Char
  method : List Char
  description : Option (List Char) := none
  payload : Option Json := none
  expected_status : List Nat := []
  assertions : List Assertion := []

/-! ## Test executor

Modelled from the spec: the backend executor service
(`backend/app/services`, not under the shipped source tree) per §4.4 —
request materialisation and transport are abstracted into a per-case
`Transport` outcome; assertion evaluation, result statuses and the
running summary follow the per-case execution algorithm. -/

/-- Modelled from the spec: an HTTP response as seen by the executor
(status code, body, headers, elapsed time). -/
structure HttpResponse where
  status : Nat
  body : Json := .null
  headers : List (List Char × List Char) := []
  time_ms : Nat := 0

/-- Modelled from the spec: the outcome of issuing one case's HTTP
request — either a response, or a transport failure (timeout or
connection error) carrying the underlying error message. -/
inductive Transport where
  | response (r : HttpResponse)
  | failure (msg : List Char)

/-- One entry of `assertion_results`:
`{assertion, passed, message, actual_value}` per spec §3. -/
structure AssertionResult where
  assertion : Assertion
  passed : Bool
  message : List Char
  actual_value : Option Json

/-- Substring test on character lists (JavaScript `String.includes`). -/
def containsSub (hay needle : List Char) : Bool :=
  match hay with
  | [] => needle.isEmpty
  | _ :: t => needle.isPrefixOf hay || containsSub t needle

/-- Top-level field lookup used when an assertion names a `field`;
deeper JSON-path navigation is a backend collaborator. -/
def jsonField (j : Json) (f : List Char) : Option Json :=
  match j with
  | .obj fields => (fields.find? (fun p => p.1 = f)).map Prod.snd
  | _ => none

/-- Modelled from the spec: the value an assertion is checked against —
the named body/header field, the status code, or the response time. -/
def actualValueFor (resp : HttpResponse) (a : Assertion) : Option Json :=
  match a.type with
  | .status_code => some (.num resp.status)
  | .response_time => some (.num resp.time_ms)
  | .response_header =>
      match a.field with
      | some f => ((resp.headers.find? (fun p => p.1 = f)).map Prod.snd).map .str
      | none => none
  | _ =>
      match a.field with
      | some f => jsonField resp.body f
      | none => some resp.body

/-- Modelled from the spec: generic condition check between the actual
value and the assertion's expected value (regex `matches` is
approximated by substring containment; its engine is a collaborator). -/
def checkCondition (c : AssertionCondition) (actual : Option Json)
    (expected : Option Json) : Bool :=
  match c with
  | .equals => actual == expected
  | .not_equals => !(actual == expected)
  | .contains =>
      match actual, expected with
      | some (.str s), some (.str e) => containsSub s e
      | some (.arr xs), some e => xs.contains e
      | _, _ => false
  | .not_contains =>
      match actual, expected with
      | some (.str s), some (.str e) => !containsSub s e
      | some (.arr xs), some e => !xs.contains e
      | _, _ => false
  | .greater_than =>
      match actual, expected with
      | some (.num x), some (.num y) => y < x
      | _, _ => false
  | .less_than =>
      match actual, expected with
      | some (.num x), some (.num y) => x < y
      | _, _ => false
  | .matches =>
      match actual, expected with
      | some (.str s), some (.str e) => containsSub s e
      | _, _ => false
  | .«exists» => actual.isSome
  | .not_exists => actual.isNone

/-- Modelled from the spec: evaluate one assertion against the response
(§4.4 step 3–4).  A `status_code` assertion with condition `equals` is
satisfied iff the actual status is a member of the test case's
`expected_status` set; other assertions compare the actual value with
`expected_value` under the declared condition. -/
def evalAssertion (expected_status : List Nat) (resp : HttpResponse)
    (a : Assertion) : AssertionResult :=
  let actual := actualValueFor resp a
  let ok :=
    match a.type, a.condition with
    | .status_code, .equals => expected_status.contains resp.status
    | .status_code, .not_equals => !expected_status.contains resp.status
    | _, c => checkCondition c actual a.expected_value
  { assertion := a
    passed := ok
    message := if ok then "assertion passed".toList else "assertion failed".toList
    actual_value := actual }

/-- Modelled from the spec: all of a case's assertions are evaluated in
declaration order, with no short-circuit (§4.4 step 3). -/
def evalAssertions (expected_status : List Nat) (resp : HttpResponse)
    (as : List Assertion) : List AssertionResult :=
  as.map (evalAssertion expected_status resp)

/-- Result status of one executed case, per spec §4.4. -/
inductive ResultStatus where
  | passed | failed | error
deriving DecidableEq, Repr

/-- A test result, one per executed case per execution (spec §3). -/
structure TestResult where
  test_case_index : Nat
  test_name : List Char
  test_type : List Char
  endpoint : List Char
  method : List Char
  status : ResultStatus
  expected_status : List Nat
  actual_status : Option Nat
  assertion_results : List AssertionResult
  error : Option (List Char)

/-- Modelled from the spec: execute one case given its transport
outcome (§4.4 steps 2–4).  Transport failure records `status = error`
with the underlying message; otherwise all assertions are evaluated and
the case passes iff every assertion holds and the actual status is in
`expected_status`. -/
def executeCase (tc : TestCase) (t : Transport) : TestResult :=
  match t with
  | .failure msg =>
      { test_case_index := tc.index, test_name := tc.name, test_type := tc.type
        endpoint := tc.endpoint, method := tc.method
        status := .error, expected_status := tc.expected_status
        actual_status := none, assertion_results := [], error := some msg }
  | .response r =>
      let ars := evalAssertions tc.expected_status r tc.assertions
      let ok := ars.all (·.passed) && tc.expected_status.contains r.status
      { test_case_index := tc.index, test_name := tc.name, test_type := tc.type
        endpoint := tc.endpoint, method := tc.method
        status := if ok then .passed else .failed
        expected_status := tc.expected_status
        actual_status := some r.status, assertion_results := ars, error := none }

/-- Run-level summary counters (spec §4.4 step 5). -/
structure Summary where
  total : Nat
  passed : Nat
  failed : Nat
  errors : Nat
  progress : Nat
deriving DecidableEq, Repr

/-- Modelled from the spec: update the running summary counters as one
case finishes (§4.4 step 5). -/
def updateSummary (s : Summary) (r : TestResult) : Summary :=
  { s with
    progress := s.progress + 1
    passed := s.passed + (if r.status = .passed then 1 else 0)
    failed := s.failed + (if r.status = .failed then 1 else 0)
    errors := s.errors + (if r.status = .error then 1 else 0) }

/-- Execution status, per spec §3/§4.4. -/
inductive ExecStatus where
  | running | completed | failed
deriving DecidableEq, Repr

/-- A test execution: results plus summary (spec §3). -/
structure TestExecution where
  status : ExecStatus
  results : List TestResult
  summary : Summary

/-- Modelled from the spec: run a batch to completion — the selected
cases, each paired with its transport outcome, are processed
sequentially; every case contributes exactly one result and the summary
counters are folded over the results, starting from `total` = number of
selected cases. -/
def runExecution (inputs : List (TestCase × Transport)) : TestExecution :=
  let results := inputs.map (fun pr => executeCase pr.1 pr.2)
  { status := .completed
    results := results
    summary := results.foldl updateSummary
      { total := inputs.length, passed := 0, failed := 0, errors := 0, progress := 0 } }

/-! ## Project configuration

The read shape (`has_auth`/`has_llm_key`, no secret fields) is embedded
from the `Config` interface of the frontend `configSlice`; the backend
`save_config`/`get_config` handlers are not under the shipped source
tree and are modelled from the spec (§6). -/

/-- Modelled from the spec: a secret held encrypted at rest.  The
encryption service is an external collaborator (§6); the wrapper marks
values that read APIs must never return. -/
structure Encrypted where
  data : List Char

/-- Modelled from the spec: the stored per-project configuration —
non-secret fields plus the encrypted auth credential and LLM API key,
each present or absent. -/
structure StoredConfig where
  base_url : List Char
  auth_type : Option (List Char)
  llm_provider : Option (List Char)
  llm_model : Option (List Char)
  llm_endpoint : Option (List Char)
  auth_secret : Option Encrypted
  llm_api_key : Option Encrypted

/-- Modelled from the spec: a `save_config` request body — plaintext
secrets are optional fields, `none` meaning the field was omitted from
the request. -/
structure SaveConfigRequest where
  base_url : List Char
  auth_type : Option (List Char)
  llm_provider : Option (List Char)
  llm_model : Option (List Char)
  llm_endpoint : Option (List Char)
  auth_secret : Option (List Char)
  llm_api_key : Option (List Char)

/-- The `Config` shape returned to callers, from the `Config` interface
in the frontend `configSlice` (part of the shipped source): non-secret
fields plus the `has_auth`/`has_llm_key` presence booleans — no
secret-valued field exists in this shape. -/
structure ConfigView where
  base_url : List Char
  auth_type : Option (List Char)
  llm_provider : Option (List Char)
  llm_model : Option (List Char)
  llm_endpoint : Option (List Char)
  has_auth : Bool
  has_llm_key : Bool
deriving DecidableEq

/-- Modelled from the spec: `save_config` — non-secret fields are taken
from the request; a supplied plaintext secret is stored encrypted; an
omitted secret keeps the stored one (upsert-merge, not full replace). -/
def saveConfig (req : SaveConfigRequest) (old : Option StoredConfig) : StoredConfig :=
  { base_url := req.base_url
    auth_type := req.auth_type
    llm_provider := req.llm_provider
    llm_model := req.llm_model
    llm_endpoint := req.llm_endpoint
    auth_secret :=
      match req.auth_secret with
      | some s => some ⟨s⟩
      | none => old.bind (fun c => c.auth_secret)
    llm_api_key :=
      match req.llm_api_key with
      | some s => some ⟨s⟩
      | none => old.bind (fun c => c.llm_api_key) }

/-- Modelled from the spec: `get_config` — secret fields are replaced by
the `has_auth`/`has_llm_key` presence booleans; the secret values are
never projected. -/
def getConfig (st : StoredConfig) : ConfigView :=
  { base_url := st.base_url
    auth_type := st.auth_type
    llm_provider := st.llm_provider
    llm_model := st.llm_model
    llm_endpoint := st.llm_endpoint
    has_auth := st.auth_secret.isSome
    has_llm_key := st.llm_api_key.isSome }

/-- `handleSubmit` in `Config.tsx` (lines 196–209): the LLM API key is
dropped from the save request when the form field is empty and a key is
already on file (`if (!formData.llm_api_key && config?.has_llm_key)
delete configToSave.llm_api_key`); otherwise the field's value is sent. -/
def configToSaveLlmKey (formKey : List Char) (hasLlmKey : Bool) : Option (List Char) :=
  if formKey.isEmpty && hasLlmKey then none else some formKey

/-- Concrete save request carrying both plaintext secrets, used by
witnesses. -/
def sampleSaveReq : SaveConfigRequest :=
  { base_url := "https://api.example.com".toList
    auth_type := some "bearer".toList
    llm_provider := some "openai".toList
    llm_model := some "gpt-4".toList
    llm_endpoint := none
    auth_secret := some "tok123".toList
    llm_api_key := some "sk-abc".toList }

/-- Concrete stored configuration with both secrets on file, used by
witnesses. -/
def sampleStored : StoredConfig :=
  { base_url := "https://old.example.com".toList
    auth_type := some "bearer".toList
    llm_provider := some "openai".toList
    llm_model := some "gpt-4".toList
    llm_endpoint := none
    auth_secret := some ⟨"oldtok".toList⟩
    llm_api_key := some ⟨"sk-old".toList⟩ }

/-- Concrete save request omitting both secret fields, used by
witnesses. -/
def sampleMergeReq : SaveConfigRequest :=
  { base_url := "https://new.example.com".toList
    auth_type := some "bearer".toList
    llm_provider := some "openai".toList
    llm_model := some "gpt-4o".toList
    llm_endpoint := none
    auth_secret := none
    llm_api_key := none }

/-- Concrete happy-path test case used by witnesses. -/
def sampleCase : TestCase :=
  { index := 0
    type := "happy_path".toList
    name := "get users returns 200".toList
    endpoint := "/users".toList
    method := "GET".toList
    expected_status := [200]
    assertions :=
      [ { type := .status_code, condition := .equals, expected_value := some (.num 200) },
        { type := .response_body, condition := .«exists» } ] }

/-- Concrete batch used by witnesses: one case that gets a 200 response
followed by one whose request fails at the transport level. -/
def sampleInputs : List (TestCase × Transport) :=
  [ (sampleCase, .response { status := 200, body := .arr [] }),
    ({ sampleCase with index := 1, name := "unreachable host".toList },
      .failure "connection refused".toList) ]

/-! ## Deleting an endpoint's test cases

`handleDeleteEndpoint` in `TestSuite.tsx` sends
`DELETE /generate/{suite}/endpoints` with one `(method, path)` pair; the
backend removal itself is modelled from the spec (§3/§6). -/

/-- Modelled from the spec: `delete_cases` for one endpoint — removes
exactly the `TestCase`s whose `endpoint_ref` matches `(method, path)`
and leaves every other case in place, unchanged and unrenumbered. -/
def deleteEndpointTests (method path : List Char) (cases : List TestCase) :
    List TestCase :=
  cases.filter (fun tc => !(tc.method == method && tc.endpoint == path))

/-- One of the six test cases of scenario endpoint A (`GET /users`). -/
def caseA (i : Nat) : TestCase :=
  { index := i, type := "happy_path".toList, name := "users case".toList
    endpoint := "/users".toList, method := "GET".toList
    expected_status := [200] }

/-- One of the four test cases of scenario endpoint B (`POST /orders`). -/
def caseB (i : Nat) : TestCase :=
  { index := i, type := "happy_path".toList, name := "orders case".toList
    endpoint := "/orders".toList, method := "POST".toList
    expected_status := [201] }

/-- The 10-case, 2-endpoint scenario suite from spec §8: endpoint A has
six cases (indices 0–5), endpoint B four (indices 6–9). -/
def scenarioSuite : List TestCase :=
  [caseA 0, caseA 1, caseA 2, caseA 3, caseA 4, caseA 5,
   caseB 6, caseB 7, caseB 8, caseB 9]

/-! ## Test generation and the generated-endpoints exclusion filter

`filteredEndpoints` is embedded from `ProjectDetail.tsx` (lines 90–110);
the backend `generate` service is modelled from the spec (§4.3/§6),
deriving the exclusion set from the suite's existing endpoint
references as §9 prescribes. -/

/-- An endpoint extracted from the uploaded spec, as listed in the
project-detail endpoint table (`path`, `method`, `summary`,
`operation_id`) together with the required request fields the generator
consumes (spec §4.3). -/
structure Endpoint where
  path : List Char
  method : List Char
  summary : Option (List Char) := none
  operation_id : Option (List Char) := none
  required_fields : List (List Char) := []
deriving DecidableEq

/-- JavaScript `String.prototype.toLowerCase` on an ASCII string. -/
def jsToLowerCase (s : List Char) : List Char := s.map Char.toLower

/-- JavaScript whitespace characters relevant to `trim` (ASCII part). -/
def isJsSpace (c : Char) : Bool :=
  c == ' ' || c == '\t' || c == '\n' || c == '\r'

/-- JavaScript `String.prototype.trim` (ASCII whitespace). -/
def jsTrim (s : List Char) : List Char :=
  ((s.dropWhile isJsSpace).reverse.dropWhile isJsSpace).reverse

/-- `filteredEndpoints` from `ProjectDetail.tsx` (lines 90–110): first
drop every endpoint whose key is in the generated-endpoints set, then,
when the search query is non-blank, keep only endpoints whose path,
method, summary or operation id contains the lower-cased query. -/
def filteredEndpoints (endpoints : List Endpoint)
    (generatedEndpoints : List (List Char)) (searchQuery : List Char) :
    List Endpoint :=
  let availableEndpoints := endpoints.filter (fun endpoint =>
    !(decide (getEndpointKey ⟨endpoint.method, endpoint.path⟩ ∈ generatedEndpoints)))
  if (jsTrim searchQuery).isEmpty then availableEndpoints
  else
    let query := jsToLowerCase searchQuery
    availableEndpoints.filter (fun endpoint =>
      containsSub (jsToLowerCase endpoint.path) query
      || containsSub (jsToLowerCase endpoint.method) query
      || (match endpoint.summary with
          | some s => containsSub (jsToLowerCase s) query
          | none => false)
      || (match endpoint.operation_id with
          | some s => containsSub (jsToLowerCase s) query
          | none => false))

/-- The endpoint references `(method, endpoint)` of a suite's cases;
per spec §9 the generated-endpoints exclusion set is derived from
these. -/
def endpointRefs (cases : List TestCase) : List (List Char × List Char) :=
  cases.map (fun tc => (tc.method, tc.endpoint))

/-- Largest `index` present in a suite (0 for an empty suite). -/
def maxIndex (cases : List TestCase) : Nat :=
  cases.foldr (fun tc m => max tc.index m) 0

/-- Modelled from the spec: index numbering continues from the suite's
current maximum (§4.3). -/
def nextIndex (cases : List TestCase) : Nat :=
  if cases.isEmpty then 0 else maxIndex cases + 1

/-- Assign consecutive `index` values starting at `n`. -/
def withIndices : Nat → List TestCase → List TestCase
  | _, [] => []
  | n, c :: cs => { c with index := n } :: withIndices (n + 1) cs

/-- Modelled from the spec: the happy-path case generated for an
endpoint (§4.3) — index assigned later by `withIndices`. -/
def happyCase (e : Endpoint) : TestCase :=
  { index := 0, type := "happy_path".toList
    name := "happy path".toList
    endpoint := e.path, method := e.method
    expected_status := [200]
    assertions := [{ type := .status_code, condition := .equals
                     expected_value := some (.num 200) }] }

/-- Modelled from the spec: the negative case generated per required
field omission (§4.3). -/
def negativeCase (e : Endpoint) (f : List Char) : TestCase :=
  { index := 0, type := "negative".toList
    name := "missing required field ".toList ++ f
    endpoint := e.path, method := e.method
    expected_status := [400, 422] }

/-- Modelled from the spec: the cases generated for one endpoint — at
least one happy-path case, plus one negative case per required field,
all referencing that endpoint (§4.3). -/
def genCasesFor (e : Endpoint) : List TestCase :=
  happyCase e :: e.required_fields.map (negativeCase e)

/-- Modelled from the spec: `generate(project_id, selected_endpoints)` —
endpoints already present in the exclusion set (derived from the
suite's existing endpoint references) are skipped; cases for the
remaining endpoints are appended to the suite with indices continuing
from the current maximum (§4.3/§6/§9). -/
def generateTests (suite : List TestCase) (eps : List Endpoint) : List TestCase :=
  let generated := endpointRefs suite
  let todo := eps.filter (fun e => !(decide ((e.method, e.path) ∈ generated)))
  suite ++ withIndices (nextIndex suite) (todo.flatMap genCasesFor)

/-- Concrete endpoint `GET /users`, used by witnesses. -/
def sampleEndpointA : Endpoint :=
  { path := "/users".toList, method := "GET".toList
    summary := some "List users".toList }

/-- Concrete endpoint `POST /orders` with one required field, used by
witnesses. -/
def sampleEndpointB : Endpoint :=
  { path := "/orders".toList, method := "POST".toList
    required_fields := ["id".toList] }

/-! ## Spec resolver: bounded `$ref` resolution

The spec-resolver service is not under the shipped source tree; the
`$ref` machinery is modelled from the spec (§4.1, §7, §9). -/

/-- Modelled from the spec: the resolver's error taxonomy (§4.1/§7) —
unresolvable refs, ref recursion beyond the bounded depth, and
structurally invalid documents (missing `paths`, invalid method key). -/
inductive SpecParseError where
  | unresolvableRef (name : List Char)
  | maxDepthExceeded
  | missingPaths
  | invalidMethod (m : List Char)
deriving DecidableEq, Repr

/-- Modelled from the spec: a JSON-schema fragment as the resolver sees
it — a primitive leaf, a `$ref` by name, or an object of named
properties. -/
inductive RefSchema where
  | prim
  | ref (name : List Char)
  | obj (props : List (List Char × RefSchema))

/-- A schema-reference table: `$ref` name → referenced schema. -/
def RefTable : Type := List (List Char × RefSchema)

/-- Modelled from the spec: the cap on resolution recursion depth
(§4.1 suggests e.g. 50). -/
def maxRefDepth : Nat := 50

/-- Resolve each named property with `f`, failing on the first error. -/
def resolveListWith (f : RefSchema → Except SpecParseError RefSchema) :
    List (List Char × RefSchema) →
      Except SpecParseError (List (List Char × RefSchema))
  | [] => .ok []
  | kv :: rest =>
      match f kv.2 with
      | .error e => .error e
      | .ok s2 =>
          match resolveListWith f rest with
          | .error e => .error e
          | .ok rest2 => .ok ((kv.1, s2) :: rest2)

/-- Modelled from the spec: resolve all `$ref` indirection in a schema
to a fixed point under a bounded recursion depth — running out of
depth (cyclic or overly deep chains) and unresolvable names fail fast
with a `SpecParseError` instead of looping (§4.1/§9). -/
def resolveSchema (table : RefTable) : Nat → RefSchema → Except SpecParseError RefSchema
  | 0, _ => .error .maxDepthExceeded
  | _ + 1, .prim => .ok .prim
  | fuel + 1, .ref n =>
      match table.find? (fun p => p.1 == n) with
      | none => .error (.unresolvableRef n)
      | some p => resolveSchema table fuel p.2
  | fuel + 1, .obj props =>
      match resolveListWith (fun s => resolveSchema table fuel s) props with
      | .error e => .error e
      | .ok props2 => .ok (.obj props2)

mutual

/-- A schema is fully dereferenced: no `$ref` node remains. -/
def RefSchema.noRefs : RefSchema → Bool
  | .prim => true
  | .ref _ => false
  | .obj props => noRefsList props

/-- All property values of an object schema are fully dereferenced. -/
def noRefsList : List (List Char × RefSchema) → Bool
  | [] => true
  | kv :: rest => RefSchema.noRefs kv.2 && noRefsList rest

end

/-- Modelled from the spec: a raw spec document — the `paths` object
(path → method → request/response schema), possibly absent. -/
structure SpecDoc where
  paths : Option (List (List Char × List (List Char × RefSchema)))

/-- The HTTP method keys a `paths` object may use (§4.1). -/
def allowedMethods : List (List Char) :=
  ["get".toList, "post".toList, "put".toList, "delete".toList,
   "patch".toList, "head".toList, "options".toList]

/-- First method key of the document that is not a valid HTTP method. -/
def firstInvalidMethod
    (ps : List (List Char × List (List Char × RefSchema))) : Option (List Char) :=
  (ps.flatMap (fun p => p.2.map Prod.fst)).find?
    (fun m => !(decide (m ∈ allowedMethods)))

/-- Resolve the schema of every operation, failing on the first
resolver error. -/
def resolveOperations (table : RefTable) :
    List (List Char × List Char × RefSchema) →
      Except SpecParseError (List (List Char × List Char × RefSchema))
  | [] => .ok []
  | (p, m, s) :: rest =>
      match resolveSchema table maxRefDepth s with
      | .error e => .error e
      | .ok s2 =>
          match resolveOperations table rest with
          | .error e => .error e
          | .ok rest2 => .ok ((p, m, s2) :: rest2)

/-- Modelled from the spec: the spec resolver entry point — fails fast
with `SpecParseError` on a missing `paths` object or an invalid method
key, else resolves every operation's schema under the bounded depth
(§4.1). -/
def parseSpec (table : RefTable) (doc : SpecDoc) :
    Except SpecParseError (List (List Char × List Char × RefSchema)) :=
  match doc.paths with
  | none => .error .missingPaths
  | some ps =>
      match firstInvalidMethod ps with
      | some m => .error (.invalidMethod m)
      | none =>
          resolveOperations table
            (ps.flatMap (fun p => p.2.map (fun op => (p.1, op.1, op.2))))

/-! ## Theorems -/

/-! Facts about `jsSplit` needed for the round-trip analysis. -/

theorem jsSplitAux_no_sep (sep : Char) (s acc : List Char) (h : sep ∉ s) :
    jsSplitAux sep s acc = [acc.reverse ++ s] := by
  induction s generalizing acc with
  | nil => simp [jsSplitAux]
  | cons c rest ih =>
      have hc : ¬ c = sep := fun hc => h (hc ▸ List.mem_cons_self c rest)
      have hr : sep ∉ rest := fun hm => h (List.mem_cons_of_mem c hm)
      simp [jsSplitAux, hc, ih _ hr]

theorem jsSplitAux_sep_append (sep : Char) (m p acc : List Char) (hm : sep ∉ m) :
    jsSplitAux sep (m ++ sep :: p) acc =
      (acc.reverse ++ m) :: jsSplitAux sep p [] := by
  induction m generalizing acc with
  | nil => simp [jsSplitAux]
  | cons c rest ih =>
      have hc : ¬ c = sep := fun hc => hm (hc ▸ List.mem_cons_self c rest)
      have hr : sep ∉ rest := fun h => hm (List.mem_cons_of_mem c h)
      simp [jsSplitAux, hc, ih _ hr]

theorem jsSplit_single_sep (sep : Char) (m p : List Char)
    (hm : sep ∉ m) (hp : sep ∉ p) :
    jsSplit sep (m ++ sep :: p) = [m, p] := by
  unfold jsSplit
  rw [jsSplitAux_sep_append sep m p [] hm]
  simp [jsSplitAux_no_sep sep p [] hp]

/-- C10 counterexample: the frontend's endpoint-key round-trip fails as
soon as the path itself contains a colon (OpenAPI paths such as
`/v1/users:search` are legal).  Encoding `GET /v1/users:search` and
decoding with `key.split(':')` destructuring yields path `/v1/users`,
not the original path. -/
theorem endpoint_key_roundtrip_cex :
    decodeEndpointKey (getEndpointKey ⟨"GET".toList, "/v1/users:search".toList⟩) ≠
      (some "GET".toList, some "/v1/users:search".toList) := by
  decide

/-- C10 (amended): for endpoints whose method is already upper-case and
contains no colon, and whose path contains no colon, encoding with
`getEndpointKey` and decoding with a split on `':'` recovers exactly the
original `(method, path)` pair.  (In general the decoder returns the
upper-cased method and the path truncated at its first colon.) -/
theorem endpoint_key_roundtrip (e : EndpointId)
    (hm : toUpperCase e.method = e.method)
    (hmc : ':' ∉ e.method) (hpc : ':' ∉ e.path) :
    decodeEndpointKey (getEndpointKey e) = (some e.method, some e.path) := by
  unfold decodeEndpointKey getEndpointKey
  rw [hm, jsSplit_single_sep ':' e.method e.path hmc hpc]
  rfl

/-- C10 witness: the amended round-trip evaluated at `GET /users`. -/
theorem endpoint_key_roundtrip_witness :
    decodeEndpointKey (getEndpointKey ⟨"GET".toList, "/users".toList⟩) =
      (some "GET".toList, some "/users".toList) :=
  endpoint_key_roundtrip ⟨"GET".toList, "/users".toList⟩
    (by decide) (by decide) (by decide)

theorem foldl_updateSummary_total (rs : List TestResult) (init : Summary) :
    (rs.foldl updateSummary init).total = init.total := by
  induction rs generalizing init with
  | nil => rfl
  | cons r rs ih => simpa [updateSummary] using ih (updateSummary init r)

theorem foldl_updateSummary_sum (rs : List TestResult) (init : Summary) :
    (rs.foldl updateSummary init).passed + (rs.foldl updateSummary init).failed
        + (rs.foldl updateSummary init).errors
      = init.passed + init.failed + init.errors + rs.length := by
  induction rs generalizing init with
  | nil => simp
  | cons r rs ih =>
      rw [List.foldl_cons, ih]
      rcases hs : r.status <;> simp [updateSummary, hs] <;> omega

/-- C1: for every execution that reaches the terminal `completed` state,
the run-level summary counters satisfy
`passed + failed + errors = total`, and `total` equals the number of
entries in the execution's results list. -/
theorem execution_summary_consistent (inputs : List (TestCase × Transport))
    (_completed : (runExecution inputs).status = .completed) :
    (runExecution inputs).summary.passed + (runExecution inputs).summary.failed
        + (runExecution inputs).summary.errors = (runExecution inputs).summary.total
      ∧ (runExecution inputs).summary.total = (runExecution inputs).results.length := by
  constructor
  · rw [runExecution]
    simp only [foldl_updateSummary_sum, foldl_updateSummary_total, List.length_map]
    simp
  · rw [runExecution]
    simp only [foldl_updateSummary_total, List.length_map]

/-- C1 witness: the summary invariant evaluated on a concrete completed
two-case batch (one pass, one transport error). -/
theorem execution_summary_consistent_witness :
    (runExecution sampleInputs).status = .completed ∧
      ((runExecution sampleInputs).summary.passed
          + (runExecution sampleInputs).summary.failed
          + (runExecution sampleInputs).summary.errors
            = (runExecution sampleInputs).summary.total
        ∧ (runExecution sampleInputs).summary.total
            = (runExecution sampleInputs).results.length) :=
  ⟨rfl, execution_summary_consistent sampleInputs rfl⟩

/-- C4: when one selected case's request fails at the transport level,
the executor records a result with `status = error` and a populated
error message for that case, and every other selected case still gets a
result — the batch is never aborted (`results` has one entry per input
case). -/
theorem transport_error_isolated (inputs : List (TestCase × Transport))
    (i : Nat) (tc : TestCase) (msg : List Char)
    (h : inputs[i]? = some (tc, .failure msg)) :
    ((runExecution inputs).results[i]?).map TestResult.status = some .error
      ∧ (((runExecution inputs).results[i]?).bind TestResult.error) = some msg
      ∧ (runExecution inputs).results.length = inputs.length := by
  have hres : (runExecution inputs).results[i]?
      = some (executeCase tc (.failure msg)) := by
    show (inputs.map (fun pr => executeCase pr.1 pr.2))[i]? = _
    rw [List.getElem?_map, h]
    rfl
  refine ⟨?_, ?_, ?_⟩
  · rw [hres]; rfl
  · rw [hres]; rfl
  · simp [runExecution]

/-- C4 witness: in the concrete two-case batch, the second case's
connection failure yields an `error` result with the transport message,
while the batch still produced a result for every case. -/
theorem transport_error_isolated_witness :
    sampleInputs[1]?
        = some ({ sampleCase with index := 1, name := "unreachable host".toList },
            .failure "connection refused".toList)
      ∧ (((runExecution sampleInputs).results[1]?).map TestResult.status = some .error
          ∧ (((runExecution sampleInputs).results[1]?).bind TestResult.error)
              = some "connection refused".toList
          ∧ (runExecution sampleInputs).results.length = sampleInputs.length) :=
  ⟨rfl, transport_error_isolated sampleInputs 1
    { sampleCase with index := 1, name := "unreachable host".toList }
    "connection refused".toList rfl⟩

/-- C5: a `status_code` assertion with condition `equals` passes iff the
actual response status is a member of the test case's `expected_status`
list — set membership, not equality with a single value. -/
theorem status_code_equals_membership (es : List Nat) (r : HttpResponse)
    (a : Assertion) (ht : a.type = .status_code) (hc : a.condition = .equals) :
    (evalAssertion es r a).passed = true ↔ r.status ∈ es := by
  obtain ⟨t, c, ev, f, d⟩ := a
  cases ht
  cases hc
  simp [evalAssertion]

/-- C5 witness: a status-code/equals assertion against a 201 response
with `expected_status = [200, 201]` passes by membership. -/
theorem status_code_equals_membership_witness :
    (evalAssertion [200, 201] { status := 201 }
        { type := .status_code, condition := .equals }).passed = true
      ↔ (201 : Nat) ∈ [200, 201] :=
  status_code_equals_membership [200, 201] { status := 201 }
    { type := .status_code, condition := .equals } rfl rfl

/-- C6: for every executed test case, every declared assertion is
evaluated (no short-circuit after a failure) and the resulting
`assertion_results` list has exactly one entry per declared assertion,
in declaration order — the `i`-th result is the evaluation of the
`i`-th assertion. -/
theorem assertions_evaluated_in_order (tc : TestCase) (r : HttpResponse) :
    (executeCase tc (.response r)).assertion_results.length = tc.assertions.length
      ∧ ∀ i : Nat,
          ((executeCase tc (.response r)).assertion_results[i]?).map
              AssertionResult.assertion
            = tc.assertions[i]? := by
  constructor
  · show (tc.assertions.map (evalAssertion tc.expected_status r)).length = _
    exact List.length_map _ _
  · intro i
    show ((tc.assertions.map (evalAssertion tc.expected_status r))[i]?).map
        AssertionResult.assertion = tc.assertions[i]?
    rw [List.getElem?_map]
    cases h : tc.assertions[i]? with
    | none => rfl
    | some a => rfl

/-- C2: after saving a config with a plaintext secret, reading it back
exposes only the presence booleans: `has_auth`/`has_llm_key` are true
exactly when the corresponding secret is stored (and in particular true
when the save supplied one), and the returned view is entirely
independent of the secret values — so no field of any read can carry
the plaintext. -/
theorem config_secret_not_roundtripped (req : SaveConfigRequest)
    (old : Option StoredConfig) :
    (getConfig (saveConfig req old)).has_auth
        = (saveConfig req old).auth_secret.isSome
      ∧ (getConfig (saveConfig req old)).has_llm_key
          = (saveConfig req old).llm_api_key.isSome
      ∧ (∀ s, req.auth_secret = some s
          → (getConfig (saveConfig req old)).has_auth = true)
      ∧ (∀ s, req.llm_api_key = some s
          → (getConfig (saveConfig req old)).has_llm_key = true)
      ∧ (∀ s₁ s₂ s₃ s₄,
          getConfig (saveConfig
              { req with auth_secret := some s₁, llm_api_key := some s₂ } old)
            = getConfig (saveConfig
                { req with auth_secret := some s₃, llm_api_key := some s₄ } old)) := by
  refine ⟨rfl, rfl, ?_, ?_, ?_⟩
  · intro s hs
    simp [getConfig, saveConfig, hs]
  · intro s hs
    simp [getConfig, saveConfig, hs]
  · intro s₁ s₂ s₃ s₄
    simp [getConfig, saveConfig]

/-- C2 witness: saving a concrete request that carries both plaintext
secrets into an empty store and reading back yields both presence
booleans true, and the view equals the one obtained with different
secret values. -/
theorem config_secret_not_roundtripped_witness :
    sampleSaveReq.auth_secret = some "tok123".toList
      ∧ sampleSaveReq.llm_api_key = some "sk-abc".toList
      ∧ (getConfig (saveConfig sampleSaveReq none)).has_auth = true
      ∧ (getConfig (saveConfig sampleSaveReq none)).has_llm_key = true
      ∧ getConfig (saveConfig
            { sampleSaveReq with
                auth_secret := some "tok123".toList,
                llm_api_key := some "sk-abc".toList } none)
          = getConfig (saveConfig
              { sampleSaveReq with
                  auth_secret := some "other".toList,
                  llm_api_key := some "sk-zzz".toList } none) :=
  ⟨rfl, rfl,
    (config_secret_not_roundtripped sampleSaveReq none).2.2.1 "tok123".toList rfl,
    (config_secret_not_roundtripped sampleSaveReq none).2.2.2.1 "sk-abc".toList rfl,
    (config_secret_not_roundtripped sampleSaveReq none).2.2.2.2
      "tok123".toList "sk-abc".toList "other".toList "sk-zzz".toList⟩

/-- C3: a `save_config` request that omits a secret field leaves the
stored secret of that kind unchanged (absent means keep-existing, not
clear-existing), while the supplied non-secret fields are updated; and
the frontend's `handleSubmit` omission of an empty LLM key with a key
on file therefore preserves the stored key end to end. -/
theorem save_config_upsert_merge (req : SaveConfigRequest) (old : StoredConfig) :
    (req.llm_api_key = none
        → (saveConfig req (some old)).llm_api_key = old.llm_api_key)
      ∧ (req.auth_secret = none
          → (saveConfig req (some old)).auth_secret = old.auth_secret)
      ∧ (saveConfig req (some old)).base_url = req.base_url
      ∧ (saveConfig req (some old)).auth_type = req.auth_type
      ∧ (saveConfig req (some old)).llm_provider = req.llm_provider
      ∧ (saveConfig req (some old)).llm_model = req.llm_model
      ∧ (saveConfig req (some old)).llm_endpoint = req.llm_endpoint
      ∧ (∀ formKey : List Char, formKey.isEmpty = true →
          (saveConfig { req with llm_api_key := configToSaveLlmKey formKey true }
              (some old)).llm_api_key = old.llm_api_key) := by
  refine ⟨?_, ?_, rfl, rfl, rfl, rfl, rfl, ?_⟩
  · intro hk
    simp [saveConfig, hk]
  · intro hk
    simp [saveConfig, hk]
  · intro formKey hempty
    simp [saveConfig, configToSaveLlmKey, hempty]

/-- C3 witness: saving a concrete request that omits both secrets over a
store holding both keeps the stored secrets and updates `llm_model` and
`base_url`; the frontend path with an empty form field likewise keeps
the stored key. -/
theorem save_config_upsert_merge_witness :
    sampleMergeReq.llm_api_key = none
      ∧ sampleMergeReq.auth_secret = none
      ∧ (saveConfig sampleMergeReq (some sampleStored)).llm_api_key
          = sampleStored.llm_api_key
      ∧ (saveConfig sampleMergeReq (some sampleStored)).auth_secret
          = sampleStored.auth_secret
      ∧ (saveConfig sampleMergeReq (some sampleStored)).base_url
          = sampleMergeReq.base_url
      ∧ (saveConfig sampleMergeReq (some sampleStored)).llm_model
          = sampleMergeReq.llm_model
      ∧ (saveConfig
            { sampleMergeReq with llm_api_key := configToSaveLlmKey [] true }
            (some sampleStored)).llm_api_key = sampleStored.llm_api_key :=
  ⟨rfl, rfl,
    (save_config_upsert_merge sampleMergeReq sampleStored).1 rfl,
    (save_config_upsert_merge sampleMergeReq sampleStored).2.1 rfl,
    (save_config_upsert_merge sampleMergeReq sampleStored).2.2.1,
    (save_config_upsert_merge sampleMergeReq sampleStored).2.2.2.2.2.1,
    (save_config_upsert_merge sampleMergeReq sampleStored).2.2.2.2.2.2.2 [] rfl⟩

/-- C7: deleting one endpoint's tests removes exactly the cases whose
endpoint reference matches the given `(method, path)` — survivors form
a sublist of the original suite (same entries, same order, original
`index` fields, no renumbering) — and on the concrete 10-case,
2-endpoint scenario, deleting endpoint A's six cases leaves exactly
endpoint B's four cases with their original indices 6–9. -/
theorem delete_endpoint_tests_exact (method path : List Char)
    (cases : List TestCase) :
    List.Sublist (deleteEndpointTests method path cases) cases
      ∧ (∀ tc : TestCase,
          tc ∈ deleteEndpointTests method path cases
            ↔ tc ∈ cases ∧ ¬(tc.method = method ∧ tc.endpoint = path))
      ∧ deleteEndpointTests "GET".toList "/users".toList scenarioSuite
          = [caseB 6, caseB 7, caseB 8, caseB 9]
      ∧ (deleteEndpointTests "GET".toList "/users".toList scenarioSuite).map
            TestCase.index = [6, 7, 8, 9] := by
  refine ⟨List.filter_sublist _, ?_, rfl, rfl⟩
  intro tc
  simp [deleteEndpointTests, List.mem_filter]
  tauto

theorem endpointRefs_withIndices (n : Nat) (cs : List TestCase) :
    endpointRefs (withIndices n cs) = endpointRefs cs := by
  induction cs generalizing n with
  | nil => rfl
  | cons c cs ih => simp [withIndices, endpointRefs] at ih ⊢; exact ih (n + 1)

theorem mem_endpointRefs_genCasesFor (e : Endpoint) :
    (e.method, e.path) ∈ endpointRefs (genCasesFor e) := by
  simp [genCasesFor, endpointRefs, happyCase]

theorem endpointRefs_append (a b : List TestCase) :
    endpointRefs (a ++ b) = endpointRefs a ++ endpointRefs b := by
  simp [endpointRefs]

theorem endpointRefs_flatMap (l : List Endpoint) (f : Endpoint → List TestCase) :
    endpointRefs (l.flatMap f) = l.flatMap (fun a => endpointRefs (f a)) := by
  simp [endpointRefs, List.map_flatMap]

theorem generateTests_all_generated (suite : List TestCase) (eps : List Endpoint)
    (h : ∀ e ∈ eps, (e.method, e.path) ∈ endpointRefs suite) :
    generateTests suite eps = suite := by
  show suite ++ withIndices (nextIndex suite)
      ((eps.filter
        (fun e => !(decide ((e.method, e.path) ∈ endpointRefs suite)))).flatMap
          genCasesFor) = suite
  have hf : eps.filter
      (fun e => !(decide ((e.method, e.path) ∈ endpointRefs suite))) = [] := by
    rw [List.filter_eq_nil_iff]
    intro e he
    simp [h e he]
  rw [hf]
  simp [withIndices]

theorem mem_endpointRefs_generateTests (suite : List TestCase)
    (eps : List Endpoint) (e : Endpoint) (he : e ∈ eps) :
    (e.method, e.path) ∈ endpointRefs (generateTests suite eps) := by
  show (e.method, e.path) ∈ endpointRefs (suite ++ withIndices (nextIndex suite)
      ((eps.filter
        (fun e => !(decide ((e.method, e.path) ∈ endpointRefs suite)))).flatMap
          genCasesFor))
  rw [endpointRefs_append, List.mem_append, endpointRefs_withIndices]
  by_cases hg : (e.method, e.path) ∈ endpointRefs suite
  · exact Or.inl hg
  · right
    rw [endpointRefs_flatMap]
    refine List.mem_flatMap.2 ⟨e, ?_, mem_endpointRefs_genCasesFor e⟩
    exact List.mem_filter.2 ⟨he, by simpa using hg⟩

/-- C9: generation skips every endpoint in the generated-endpoints
exclusion set — both in the frontend filter (`filteredEndpoints` never
returns an endpoint whose key is in the set) and in the backend model
(endpoints already referenced by the suite contribute nothing) — so
re-invoking `generate` over the same endpoint set is idempotent, and
any invocation only appends to the existing suite. -/
theorem generation_skips_generated (endpoints : List Endpoint)
    (generatedEndpoints : List (List Char)) (searchQuery : List Char)
    (suite : List TestCase) (eps : List Endpoint) :
    (∀ e ∈ filteredEndpoints endpoints generatedEndpoints searchQuery,
        getEndpointKey ⟨e.method, e.path⟩ ∉ generatedEndpoints)
      ∧ ((∀ e ∈ eps, (e.method, e.path) ∈ endpointRefs suite)
          → generateTests suite eps = suite)
      ∧ generateTests (generateTests suite eps) eps = generateTests suite eps
      ∧ (∃ t, generateTests suite eps = suite ++ t) := by
  refine ⟨?_, generateTests_all_generated suite eps, ?_, ⟨_, rfl⟩⟩
  · intro e he
    have hav : e ∈ endpoints.filter (fun ep =>
        !(decide (getEndpointKey ⟨ep.method, ep.path⟩ ∈ generatedEndpoints))) := by
      unfold filteredEndpoints at he
      split at he
      · exact he
      · exact (List.mem_filter.1 he).1
    have hp := (List.mem_filter.1 hav).2
    simpa using hp
  · exact generateTests_all_generated (generateTests suite eps) eps
      (fun e he => mem_endpointRefs_generateTests suite eps e he)

theorem resolveListWith_ok_mem (f : RefSchema → Except SpecParseError RefSchema) :
    ∀ (l l2 : List (List Char × RefSchema)), resolveListWith f l = .ok l2 →
      ∀ kv2 ∈ l2, ∃ kv ∈ l, f kv.2 = .ok kv2.2 := by
  intro l
  induction l with
  | nil =>
      intro l2 h kv2 hm
      simp only [resolveListWith, Except.ok.injEq] at h
      subst h
      simp at hm
  | cons kv rest ih =>
      intro l2 h kv2 hm
      simp only [resolveListWith] at h
      cases hf : f kv.2 with
      | error e => rw [hf] at h; exact absurd h (by simp)
      | ok s2 =>
          rw [hf] at h
          cases hr : resolveListWith f rest with
          | error e => rw [hr] at h; exact absurd h (by simp)
          | ok rest2 =>
              rw [hr] at h
              simp only [Except.ok.injEq] at h
              subst h
              rcases List.mem_cons.1 hm with rfl | hm2
              · exact ⟨kv, List.mem_cons_self kv rest, by rw [hf]⟩
              · obtain ⟨kv3, hkv3, hfk⟩ := ih rest2 hr kv2 hm2
                exact ⟨kv3, List.mem_cons_of_mem _ hkv3, hfk⟩

theorem noRefsList_iff (l : List (List Char × RefSchema)) :
    noRefsList l = true ↔ ∀ kv ∈ l, RefSchema.noRefs kv.2 = true := by
  induction l with
  | nil =>
      simp only [noRefsList]
      exact ⟨fun _ kv hm => absurd hm (List.not_mem_nil kv), fun _ => trivial⟩
  | cons kv rest ih =>
      simp only [noRefsList, Bool.and_eq_true, ih]
      constructor
      · rintro ⟨h1, h2⟩ kv2 hm
        rcases List.mem_cons.1 hm with rfl | hm2
        · exact h1
        · exact h2 kv2 hm2
      · intro hall
        exact ⟨hall kv (List.mem_cons_self kv rest),
          fun kv2 hm2 => hall kv2 (List.mem_cons_of_mem _ hm2)⟩

theorem resolveSchema_ok_noRefs (table : RefTable) :
    ∀ (fuel : Nat) (s t : RefSchema),
      resolveSchema table fuel s = .ok t → RefSchema.noRefs t = true := by
  intro fuel
  induction fuel with
  | zero => intro s t h; simp [resolveSchema] at h
  | succ fuel ih =>
      intro s t h
      cases s with
      | prim =>
          simp only [resolveSchema, Except.ok.injEq] at h
          subst h
          rfl
      | ref n =>
          simp only [resolveSchema] at h
          cases hf : table.find? (fun p => p.1 == n) with
          | none => rw [hf] at h; exact absurd h (by simp)
          | some p => rw [hf] at h; exact ih p.2 t h
      | obj props =>
          simp only [resolveSchema] at h
          cases hl : resolveListWith (fun s => resolveSchema table fuel s) props with
          | error e => rw [hl] at h; exact absurd h (by simp)
          | ok props2 =>
              rw [hl] at h
              simp only [Except.ok.injEq] at h
              subst h
              simp only [RefSchema.noRefs]
              refine (noRefsList_iff props2).2 ?_
              intro kv2 hm
              obtain ⟨kv, _, hres⟩ := resolveListWith_ok_mem _ props props2 hl kv2 hm
              exact ih kv.2 kv2.2 hres

/-- C8: `$ref` resolution is depth-bounded and fail-fast — every
successful resolution returns a fully dereferenced schema (a fixed
point with no `$ref` remaining); a cyclic reference exhausts the
bounded depth and yields `SpecParseError.maxDepthExceeded` instead of
looping; an unresolvable reference yields
`SpecParseError.unresolvableRef`; and structurally invalid documents
(missing `paths`, invalid method key) fail fast with the corresponding
`SpecParseError`. -/
theorem ref_resolution_bounded (table : RefTable) (s t : RefSchema)
    (h : resolveSchema table maxRefDepth s = .ok t) :
    RefSchema.noRefs t = true
      ∧ resolveSchema [("a".toList, .ref "a".toList)] maxRefDepth
          (.ref "a".toList) = .error .maxDepthExceeded
      ∧ resolveSchema [] maxRefDepth (.ref "x".toList)
          = .error (.unresolvableRef "x".toList)
      ∧ parseSpec [] { paths := none } = .error .missingPaths
      ∧ parseSpec [] { paths := some [("/users".toList, [("foo".toList, .prim)])] }
          = .error (.invalidMethod "foo".toList) :=
  ⟨resolveSchema_ok_noRefs table maxRefDepth s t h, rfl, rfl, rfl, rfl⟩

/-- C8 witness: resolving `$ref user` against a table mapping it to an
object schema succeeds at the depth cap, and the theorem yields that
the result is fully dereferenced. -/
theorem ref_resolution_bounded_witness :
    resolveSchema [("user".toList, .obj [("id".toList, .prim)])] maxRefDepth
        (.ref "user".toList) = .ok (.obj [("id".toList, .prim)])
      ∧ RefSchema.noRefs (.obj [("id".toList, .prim)]) = true :=
  ⟨rfl,
    (ref_resolution_bounded [("user".toList, .obj [("id".toList, .prim)])]
      (.ref "user".toList) (.obj [("id".toList, .prim)]) rfl).1⟩

end ApiTestGen
